import Mathlib

/-!
# Verification of the RewindGPT history extractor

Shallow embedding of `src/history_extractor.py`: the conversation data
model, the active-path message walk, title sanitization, the transcript
writer, the summary aggregator and the run orchestrator, together with
theorems settling the specification claims.

Modelling conventions:
* Python dicts with known fields become structures with `Option` fields
  (`none` = key absent or `None`).
* The `mapping` dict becomes an association list; Python dict key
  uniqueness is an explicit `Nodup` hypothesis where a proof needs it.
* Python's unbounded `while` loop becomes a fuel-indexed function that
  returns `none` when the fuel runs out, so divergence is observable.
* Machine timestamps are `Int` epoch seconds; `datetime.fromtimestamp`
  (local time) is modelled as UTC civil-calendar conversion — no claim
  depends on the time zone, only on both call sites using one function.
* Filesystem effects are modelled as event logs: the list of transcript
  files written (path, body), the list of directory-creation calls, the
  summary JSON content, and the returned manifest.
* `unicodedata.normalize("NFKC", ·)` is an external library call; it is
  passed in as a function parameter `nfkc`, and theorems that need it
  assume only properties true of NFKC (it fixes ASCII strings).
-/

/-- The `content` dict of a message: `content_type` and `parts`
(`message["content"]["parts"]`, absent parts modelled as `[]`). -/
structure MsgContent where
  content_type : Option String
  parts : List String
deriving DecidableEq, Repr

/-- A message object: `author.role` (Python default `""` when absent),
the `metadata.is_user_system_message` flag (absent = `false`), and the
optional content dict. -/
structure Message where
  role : String
  is_user_system_message : Bool
  content : Option MsgContent
deriving DecidableEq, Repr

/-- A node of the conversation mapping: optional message payload and
optional parent node-id. -/
structure Node where
  message : Option Message
  parent : Option String
deriving DecidableEq, Repr

/-- A conversation record from `conversations.json`. -/
structure Conversation where
  title : Option String
  create_time : Option Int
  update_time : Option Int
  current_node : Option String
  mapping : List (String × Node)
deriving DecidableEq, Repr

/-- A visible message: the author/text pair collected by the walk. -/
structure VisMsg where
  author : String
  text : String
deriving DecidableEq, Repr

/-- Model of `extract_message_parts`: the text parts of a message content, `[]`
unless the declared content type is `"text"`. -/
def extract_message_parts (message : Message) : List String :=
  match message.content with
  | some content => if content.content_type = some "text" then content.parts else []
  | none => []

/-- Model of `get_author_name`: map the raw author role to a display label. -/
def get_author_name (message : Message) : String :=
  if message.role = "assistant" then "ChatGPT"
  else if message.role = "system" then "Custom user info"
  else message.role

/-- The per-node inclusion test inlined in `get_conversation_messages`
(lines 66–73): a message contributes an author/text pair iff its first
text part is a non-empty string and the label test passes.  Note the
source compares the already-relabelled `author` with `"system"`. -/
def visibleMessage (message : Message) : Option VisMsg :=
  let parts := extract_message_parts message
  let author := get_author_name message
  match parts with
  | [] => none
  | p :: _ =>
    if 0 < p.length then
      if author ≠ "system" ∨ message.is_user_system_message = true then
        some { author := author, text := p }
      else none
    else none

/-- The `while current_node:` walk of `get_conversation_messages`, with
explicit fuel: `none` means the loop has not finished within `fuel`
iterations (the Python loop is unbounded, so this models divergence).
A missing node-id ends the walk (Python: `mapping.get(id, {})` is falsy,
so both the message and the next id become `None`); an empty-string id
is falsy and ends the loop. -/
def walkAux (m : List (String × Node)) :
    Nat → Option String → List VisMsg → Option (List VisMsg)
  | _, none, acc => some acc
  | 0, some id, acc => if id = "" then some acc else none
  | fuel + 1, some id, acc =>
    if id = "" then some acc
    else
      match List.lookup id m with
      | none => some acc
      | some node =>
        walkAux m fuel node.parent
          (match node.message.bind visibleMessage with
           | some v => acc ++ [v]
           | none => acc)

/-- Model of `get_conversation_messages`: walk parent links from `current_node`,
then reverse the collected list (`messages[::-1]`). -/
def get_conversation_messages (fuel : Nat) (conversation : Conversation) :
    Option (List VisMsg) :=
  (walkAux conversation.mapping fuel conversation.current_node []).map List.reverse

/-- Python re `\s` on a `str`: the Unicode whitespace code points
(9–13, 28–31, 32, 133, 160, 5760, 8192–8202, 8232, 8233, 8239, 8287,
12288). -/
def isPyWhitespace (c : Char) : Bool :=
  let v := c.toNat
  (v == 9) || (v == 10) || (v == 11) || (v == 12) || (v == 13) ||
  (v == 28) || (v == 29) || (v == 30) || (v == 31) || (v == 32) ||
  (v == 133) || (v == 160) || (v == 5760) ||
  ((8192 ≤ v) && (v ≤ 8202)) ||
  (v == 8232) || (v == 8233) || (v == 8239) || (v == 8287) || (v == 12288)

/-- The character class of `re.sub(r'[<>:"/\\|?*\x00-\x1F\s]', '_', ·)`:
the nine reserved characters `< > : " / \ | ? *` (code points 60, 62,
58, 34, 47, 92, 124, 63, 42), the control range 0–31, and whitespace. -/
def isForbiddenChar (c : Char) : Bool :=
  let v := c.toNat
  (v == 60) || (v == 62) || (v == 58) || (v == 34) || (v == 47) ||
  (v == 92) || (v == 124) || (v == 63) || (v == 42) ||
  (v ≤ 31) || isPyWhitespace c

/-- One character of the substitution: forbidden characters become a
single underscore, all others pass through. -/
def replaceChar (c : Char) : Char :=
  if isForbiddenChar c then '_' else c

/-- The whole `re.sub` call, applied character by character (the
pattern is a single character class, so the substitution is charwise). -/
def pySub (s : String) : String :=
  String.mk (s.data.map replaceChar)

/-- Python slicing `s[:n]` by code points. -/
def truncate (n : Nat) (s : String) : String :=
  String.mk (s.data.take n)

/-- Model of `sanitize_title`: NFKC-normalize (the normalizer is a parameter,
see the module comment), substitute forbidden characters, truncate to
140 characters. -/
def sanitize_title (nfkc : String → String) (title : String) : String :=
  truncate 140 (pySub (nfkc title))

/-- Zero-pad a natural number to `w` digits (as `strftime` does). -/
def zeroPad (w : Nat) (n : Nat) : String :=
  let s := toString n
  String.mk (List.replicate (w - s.length) '0') ++ s

/-- Civil date from a count of days since 1970-01-01 (proleptic
Gregorian): `(year, month, day)`. -/
def civilFromDays (days : Int) : Int × Nat × Nat :=
  let z := days + 719468
  let era : Int := z.ediv 146097
  let doe : Nat := (z.emod 146097).toNat
  let yoe : Nat := (doe - doe / 1460 + doe / 36524 - doe / 146096) / 365
  let y : Int := (yoe : Int) + era * 400
  let doy : Nat := doe - (365 * yoe + yoe / 4 - yoe / 100)
  let mp : Nat := (5 * doy + 2) / 153
  let d : Nat := doy - (153 * mp + 2) / 5 + 1
  let m : Nat := if mp < 10 then mp + 3 else mp - 9
  (if m ≤ 2 then y + 1 else y, m, d)

/-- Model of `datetime.fromtimestamp(ts).strftime("%Y_%m")` (local time
modelled as UTC). -/
def strftime_Y_m (ts : Int) : String :=
  let c := civilFromDays (ts.ediv 86400)
  zeroPad 4 c.1.toNat ++ "_" ++ zeroPad 2 c.2.1

/-- Model of `datetime.fromtimestamp(ts).strftime("%Y_%m_%d")`. -/
def strftime_Y_m_d (ts : Int) : String :=
  let c := civilFromDays (ts.ediv 86400)
  zeroPad 4 c.1.toNat ++ "_" ++ zeroPad 2 c.2.1 ++ "_" ++ zeroPad 2 c.2.2

/-- Model of `datetime.fromtimestamp(ts).strftime("%Y-%m-%d %H:%M:%S")`. -/
def fmtDateTime (ts : Int) : String :=
  let c := civilFromDays (ts.ediv 86400)
  let s := (ts.emod 86400).toNat
  zeroPad 4 c.1.toNat ++ "-" ++ zeroPad 2 c.2.1 ++ "-" ++ zeroPad 2 c.2.2 ++
    " " ++ zeroPad 2 (s / 3600) ++ ":" ++ zeroPad 2 (s / 60 % 60) ++
    ":" ++ zeroPad 2 (s % 60)

/-- Model of `create_directory`: the path of the month directory
(`base_dir / date.strftime("%Y_%m")`; the `mkdir` side effect is logged
by the orchestrator). -/
def directory_path (root : String) (ts : Int) : String :=
  root ++ "/" ++ strftime_Y_m ts

/-- Model of `create_file_name`: `directory / "<%Y_%m_%d>_<sanitized title>.txt"`. -/
def create_file_name (nfkc : String → String) (dirPath : String)
    (title : String) (ts : Int) : String :=
  dirPath ++ "/" ++ strftime_Y_m_d ts ++ "_" ++ sanitize_title nfkc title ++ ".txt"

/-- Model of `write_messages_to_file`: the file body produced by the sequence of
`file.write` calls — for each message the author label, a newline, the
text, a newline, appended left to right. -/
def writeBody (messages : List VisMsg) : String :=
  messages.foldl (fun acc m => acc ++ (m.author ++ "\n") ++ (m.text ++ "\n")) ""

/-- One entry of the summary JSON: title, formatted create/update
times, and the transcript. -/
structure SummaryEntry where
  title : String
  create_time : String
  update_time : String
  messages : List VisMsg
deriving DecidableEq, Repr

/-- Append an entry to the (insertion-ordered) group list for `g`,
creating the group at the end if absent — Python dict semantics of
`summary[directory_name].append(...)`. -/
def appendToGroup : List (String × List SummaryEntry) → String → SummaryEntry →
    List (String × List SummaryEntry)
  | [], g, e => [(g, [e])]
  | (k, es) :: rest, g, e =>
    if k = g then (k, es ++ [e]) :: rest else (k, es) :: appendToGroup rest g e

/-- Model of `update_conversation_summary`: builds the entry and appends it under
`directory_name`.  `datetime.fromtimestamp(conversation.get("create_time"))`
raises `TypeError` when `create_time` is absent — modelled as `none`. -/
def update_conversation_summary (summary : List (String × List SummaryEntry))
    (directory_name : String) (conversation : Conversation) (ts : Int)
    (messages : List VisMsg) : Option (List (String × List SummaryEntry)) :=
  match conversation.create_time with
  | none => none
  | some ct =>
    some (appendToGroup summary directory_name
      { title := conversation.title.getD "Untitled"
        create_time := fmtDateTime ct
        update_time := fmtDateTime ts
        messages := messages })

/-- The observable outcome of a run: transcript files written (path,
body) in write order, directory-creation calls in order, the summary
JSON content if it was written, the returned manifest if the run
completed, and whether an exception propagated. -/
structure RunOutcome where
  fsFiles : List (String × String)
  fsDirs : List String
  summaryFile : Option (List (String × List SummaryEntry))
  manifest : Option (List (String × String))
  raised : Bool
deriving DecidableEq, Repr

/-- The loop of `write_conversations_and_summary`, threading the file
log, directory log, in-memory summary and manifest.  A conversation
with falsy `update_time` (absent or `0`) is skipped.  `none` means a
message walk did not finish within `fuel` (divergence). -/
def wcsAux (nfkc : String → String) (fuel : Nat) (root : String) :
    List Conversation → List (String × String) → List String →
    List (String × List SummaryEntry) → List (String × String) →
    Option RunOutcome
  | [], files, dirs, summary, man =>
    some { fsFiles := files, fsDirs := dirs, summaryFile := some summary,
           manifest := some man, raised := false }
  | c :: rest, files, dirs, summary, man =>
    match c.update_time with
    | none => wcsAux nfkc fuel root rest files dirs summary man
    | some t =>
      if t = 0 then wcsAux nfkc fuel root rest files dirs summary man
      else
        match get_conversation_messages fuel c with
        | none => none
        | some msgs =>
          match update_conversation_summary summary (strftime_Y_m t) c t msgs with
          | none =>
            some { fsFiles := files ++
                     [(create_file_name nfkc (directory_path root t)
                         (c.title.getD "Untitled") t, writeBody msgs)],
                   fsDirs := dirs ++ [directory_path root t],
                   summaryFile := none, manifest := none, raised := true }
          | some summary' =>
            wcsAux nfkc fuel root rest
              (files ++
                [(create_file_name nfkc (directory_path root t)
                    (c.title.getD "Untitled") t, writeBody msgs)])
              (dirs ++ [directory_path root t]) summary'
              (man ++ [(directory_path root t,
                        create_file_name nfkc (directory_path root t)
                          (c.title.getD "Untitled") t)])

/-- Model of `write_conversations_and_summary`: process every conversation, then
write the summary JSON once. -/
def write_conversations_and_summary (nfkc : String → String) (fuel : Nat)
    (root : String) (conversations : List Conversation) : Option RunOutcome :=
  wcsAux nfkc fuel root conversations [] [] [] []

/-- The walk terminates: some amount of fuel suffices for
`get_conversation_messages` (i.e. the Python `while` loop finishes). -/
def extractTerminates (conversation : Conversation) : Prop :=
  ∃ fuel, (get_conversation_messages fuel conversation).isSome = true

/-- The node-ids the walk passes through (loop iterations actually
entered), mirroring the fuel consumption of `walkAux`. -/
def walkTrace (m : List (String × Node)) : Nat → Option String → List String
  | 0, _ => []
  | fuel + 1, cur =>
    match cur with
    | none => []
    | some id =>
      if id = "" then []
      else id :: walkTrace m fuel ((List.lookup id m).bind Node.parent)

/-- A malformed conversation whose two nodes point at each other: the
parent links form a cycle. -/
def cyclicConv : Conversation :=
  { title := none, create_time := none, update_time := none,
    current_node := some "A",
    mapping := [("A", { message := none, parent := some "B" }),
                ("B", { message := none, parent := some "A" })] }

/-- The head node-id of a chain description (leaf first). -/
def headId (nodes : List (String × Option Message)) : Option String :=
  (nodes.head?).map Prod.fst

/-- Build the mapping of a linear chain given leaf-to-root as a list of
(node-id, optional message): each node's parent is the next entry. -/
def chainMapping : List (String × Option Message) → List (String × Node)
  | [] => []
  | (id, msg) :: rest => (id, { message := msg, parent := headId rest }) :: chainMapping rest

/-- A conversation whose node graph is the linear chain `nodes`
(leaf-to-root) and whose `current_node` is the leaf. -/
def chainConv (nodes : List (String × Option Message)) : Conversation :=
  { title := none, create_time := none, update_time := none,
    current_node := headId nodes, mapping := chainMapping nodes }

/-- Visibility filtering of one chain entry. -/
def chainVisible (p : String × Option Message) : Option VisMsg :=
  p.2.bind visibleMessage

/-- The (group key, summary entry) pair a processed conversation
contributes: key `strftime("%Y_%m")` of `update_time`, entry with
title, formatted times and transcript.  `none` if the walk does not
finish in `fuel` or `create_time` is absent. -/
def conversationEntry (fuel : Nat) (c : Conversation) (t : Int) :
    Option (String × SummaryEntry) :=
  match get_conversation_messages fuel c, c.create_time with
  | some msgs, some ct =>
    some (strftime_Y_m t,
      { title := c.title.getD "Untitled", create_time := fmtDateTime ct,
        update_time := fmtDateTime t, messages := msgs })
  | _, _ => none

/-- The contributions of a conversation list, in processing order,
skipping falsy `update_time`; `none` if a processed conversation has a
diverging walk or a missing `create_time`. -/
def specEntries (fuel : Nat) : List Conversation →
    Option (List (String × SummaryEntry))
  | [] => some []
  | c :: rest =>
    match c.update_time with
    | none => specEntries fuel rest
    | some t =>
      if t = 0 then specEntries fuel rest
      else
        match conversationEntry fuel c t, specEntries fuel rest with
        | some e, some l => some (e :: l)
        | _, _ => none

/-- Group a list of (key, entry) pairs into the insertion-ordered
summary mapping. -/
def groupByFirst (l : List (String × SummaryEntry)) :
    List (String × List SummaryEntry) :=
  l.foldl (fun s p => appendToGroup s p.1 p.2) []

/-- The entry list recorded under group `g` (empty when absent). -/
def entriesOf (summary : List (String × List SummaryEntry)) (g : String) :
    List SummaryEntry :=
  (List.lookup g summary).getD []

/-- A message whose raw author role is `"system"`, carrying text, whose
metadata does not set `is_user_system_message`. -/
def unflaggedSystemMessage : Message :=
  { role := "system", is_user_system_message := false,
    content := some { content_type := some "text", parts := ["secret instructions"] } }

/-- A conversation whose single active-path message is
`unflaggedSystemMessage`. -/
def unflaggedSystemConv : Conversation :=
  { title := none, create_time := none, update_time := none,
    current_node := some "n1",
    mapping := [("n1", { message := some unflaggedSystemMessage, parent := none })] }

/-- The same conversation with the flag set. -/
def flaggedSystemConv : Conversation :=
  { title := none, create_time := none, update_time := none,
    current_node := some "n1",
    mapping := [("n1",
      { message := some { unflaggedSystemMessage with is_user_system_message := true },
        parent := none })] }

/-- C1: the claim says a `system` message without the
user-system-message flag is excluded from the transcript.  The code
does not do this: `get_author_name` relabels every `system` role to
`"Custom user info"` before the filter `author != "system"` runs, so
the filter never fires and the message is included (with the flag set
it is likewise included).  This theorem evaluates the code on the
failing input: the unflagged system message appears in the extracted
transcript. -/
theorem system_message_included_without_flag :
    get_conversation_messages 2 unflaggedSystemConv =
      some [{ author := "Custom user info", text := "secret instructions" }] ∧
    get_conversation_messages 2 flaggedSystemConv =
      some [{ author := "Custom user info", text := "secret instructions" }] ∧
    get_author_name unflaggedSystemMessage = "Custom user info" := by
  refine ⟨by decide, by decide, by decide⟩

/-- C2: sanitization is NFKC normalization, then the charwise
substitution, then truncation to 140 characters; every forbidden
character becomes exactly one underscore; a non-ASCII non-whitespace
character is preserved; the result never exceeds 140 characters; and
on `"Trip: Paris/Tokyo?"` (fixed by NFKC, being ASCII) the result is
`"Trip__Paris_Tokyo_"`. -/
theorem sanitize_title_spec (nfkc : String → String) (title : String) (d c : Char)
    (hascii : nfkc "Trip: Paris/Tokyo?" = "Trip: Paris/Tokyo?")
    (hd : isForbiddenChar d = true)
    (hc1 : 127 < c.toNat) (hc2 : isPyWhitespace c = false) :
    sanitize_title nfkc title = truncate 140 (pySub (nfkc title)) ∧
    (sanitize_title nfkc title).length ≤ 140 ∧
    replaceChar d = '_' ∧
    replaceChar c = c ∧
    sanitize_title nfkc "Trip: Paris/Tokyo?" = "Trip__Paris_Tokyo_" := by
  refine ⟨rfl, ?_, ?_, ?_, ?_⟩
  · show (String.mk ((pySub (nfkc title)).data.take 140)).length ≤ 140
    rw [String.length_mk, List.length_take]
    exact min_le_left _ _
  · simp [replaceChar, hd]
  · have h : isForbiddenChar c = false := by
      unfold isForbiddenChar
      simp only [hc2, Bool.or_false, Bool.or_eq_false_iff, beq_eq_false_iff_ne, ne_eq,
        decide_eq_false_iff_not, Nat.not_le]
      omega
    simp [replaceChar, h]
  · unfold sanitize_title; rw [hascii]; decide

/-- Witness for C2 at `nfkc := id`, `d := ':'`, `c := 'é'`. -/
theorem sanitize_title_spec_witness :
    (isForbiddenChar ':' = true ∧ 127 < 'é'.toNat ∧ isPyWhitespace 'é' = false) ∧
    (sanitize_title id "Trip: Paris/Tokyo?" =
        truncate 140 (pySub (id "Trip: Paris/Tokyo?")) ∧
      (sanitize_title id "Trip: Paris/Tokyo?").length ≤ 140 ∧
      replaceChar ':' = '_' ∧
      replaceChar 'é' = 'é' ∧
      sanitize_title id "Trip: Paris/Tokyo?" = "Trip__Paris_Tokyo_") :=
  ⟨⟨by decide, by decide, by decide⟩,
    sanitize_title_spec id "Trip: Paris/Tokyo?" ':' 'é' rfl (by decide) (by decide)
      (by decide)⟩

/-- C6: a node-id absent from the mapping ends the walk and the
messages collected so far are returned (no error); a missing
`current_node` likewise yields the empty transcript. -/
theorem dangling_node_ends_walk (m : List (String × Node)) (fuel : Nat)
    (id : String) (acc : List VisMsg) (c : Conversation)
    (hid : id ≠ "") (hlook : List.lookup id m = none)
    (hcur : c.current_node = none) :
    walkAux m (fuel + 1) (some id) acc = some acc ∧
    get_conversation_messages fuel c = some [] := by
  constructor
  · simp [walkAux, hid, hlook]
  · simp [get_conversation_messages, hcur, walkAux]

/-- Witness for C6: a dangling reference after one collected message. -/
theorem dangling_node_ends_walk_witness :
    walkAux [("n1", { message := none, parent := some "ghost" })] 4 (some "ghost")
        [{ author := "user", text := "hi" }] =
      some [{ author := "user", text := "hi" }] ∧
    get_conversation_messages 3
        { title := none, create_time := none, update_time := none,
          current_node := none, mapping := [] } = some [] :=
  dangling_node_ends_walk [("n1", { message := none, parent := some "ghost" })] 3
    "ghost" [{ author := "user", text := "hi" }]
    { title := none, create_time := none, update_time := none,
      current_node := none, mapping := [] }
    (by decide) (by decide) rfl

/-- The file body with an arbitrary already-written prefix: the
`foldl` of the write calls appends the blocks after the prefix. -/
theorem writeBody_foldl_general (l : List VisMsg) : ∀ s : String,
    l.foldl (fun acc m => acc ++ (m.author ++ "\n") ++ (m.text ++ "\n")) s =
      s ++ l.foldr (fun v acc => v.author ++ "\n" ++ (v.text ++ ("\n" ++ acc))) "" := by
  induction l with
  | nil => intro s; simp
  | cons x xs ih =>
    intro s
    simp only [List.foldl_cons, List.foldr_cons, ih]
    simp [String.append_assoc]

/-- C7: the transcript file body is exactly the concatenation of
`<author>\n<text>\n` blocks in transcript order — reading the file
back yields, message by message, the author label line followed by the
original text verbatim (equal strings have equal UTF-8 bytes). -/
theorem writeBody_blocks (messages rest : List VisMsg) (m : VisMsg) :
    writeBody messages =
      messages.foldr (fun v acc => v.author ++ "\n" ++ (v.text ++ ("\n" ++ acc))) "" ∧
    writeBody (m :: rest) = m.author ++ "\n" ++ (m.text ++ ("\n" ++ writeBody rest)) := by
  constructor
  · rw [writeBody, writeBody_foldl_general, String.empty_append]
  · rw [writeBody, writeBody, List.foldl_cons, writeBody_foldl_general,
      writeBody_foldl_general, String.empty_append, String.empty_append]
    simp [String.append_assoc]

/-- On the cyclic mapping the walk never finishes, whatever the fuel:
from either node the loop condition stays true forever. -/
theorem cyclic_walk_diverges : ∀ (fuel : Nat) (acc : List VisMsg),
    walkAux cyclicConv.mapping fuel (some "A") acc = none ∧
    walkAux cyclicConv.mapping fuel (some "B") acc = none := by
  intro fuel
  induction fuel with
  | zero => intro acc; exact ⟨rfl, rfl⟩
  | succ f ih =>
    intro acc
    exact ⟨(ih acc).2, (ih acc).1⟩

/-- C3, counterexample: the claim says extraction terminates on every
input, including a malformed one whose parent links form a cycle.  The
code has no bound on its `while` loop: on `cyclicConv` no amount of
fuel makes the walk finish, so extraction does not terminate. -/
theorem extract_diverges_on_cycle : ¬ extractTerminates cyclicConv := by
  rintro ⟨fuel, h⟩
  rw [get_conversation_messages,
    show cyclicConv.current_node = some "A" from rfl,
    (cyclic_walk_diverges fuel []).1] at h
  simp at h

/-- If the walk runs out of fuel, it entered the loop `fuel` times and
every node-id it passed through was found in the mapping. -/
theorem walkAux_none_trace (m : List (String × Node)) : ∀ (fuel : Nat)
    (cur : Option String) (acc : List VisMsg),
    walkAux m fuel cur acc = none →
    (walkTrace m fuel cur).length = fuel ∧
    ∀ id ∈ walkTrace m fuel cur, (List.lookup id m).isSome = true := by
  intro fuel
  induction fuel with
  | zero =>
    intro cur acc _
    exact ⟨rfl, by intro id hid; simp [walkTrace] at hid⟩
  | succ f ih =>
    intro cur acc h
    match cur with
    | none => simp [walkAux] at h
    | some id =>
      by_cases hid : id = ""
      · rw [hid] at h; simp [walkAux] at h
      · cases hlook : List.lookup id m with
        | none => simp [walkAux, hid, hlook] at h
        | some node =>
          have h' : walkAux m f node.parent
              (match node.message.bind visibleMessage with
               | some v => acc ++ [v]
               | none => acc) = none := by
            simpa [walkAux, hid, hlook] using h
          obtain ⟨hlen, hmem⟩ := ih node.parent _ h'
          have htr : walkTrace m (f + 1) (some id) =
              id :: walkTrace m f node.parent := by
            simp [walkTrace, hid, hlook]
          constructor
          · rw [htr, List.length_cons, hlen]
          · intro j hj
            rw [htr, List.mem_cons] at hj
            rcases hj with rfl | hj
            · rw [hlook]; rfl
            · exact hmem j hj

/-- C3, amended: extraction terminates whenever the walk from
`current_node` does not revisit a node-id, and then fuel bounded by the
size of the mapping (plus two loop exits) suffices; as
`extract_diverges_on_cycle` shows, on a cyclic chain the code's
unbounded loop never terminates, so the defensive bound the claim
describes is not present in the code. -/
theorem extract_terminates_of_nodup_trace (c : Conversation)
    (h : (walkTrace c.mapping (c.mapping.length + 2) c.current_node).Nodup) :
    (get_conversation_messages (c.mapping.length + 2) c).isSome = true ∧
    extractTerminates c := by
  have hsome : (walkAux c.mapping (c.mapping.length + 2) c.current_node []).isSome = true := by
    cases hw : walkAux c.mapping (c.mapping.length + 2) c.current_node [] with
    | some r => rfl
    | none =>
      obtain ⟨hlen, hmem⟩ := walkAux_none_trace c.mapping _ _ _ hw
      have hsub : walkTrace c.mapping (c.mapping.length + 2) c.current_node ⊆
          c.mapping.map Prod.fst := by
        intro id hid
        have := hmem id hid
        rw [List.lookup_isSome_iff] at this
        obtain ⟨p, hp, hbeq⟩ := this
        exact (beq_iff_eq.mp hbeq) ▸ List.mem_map_of_mem Prod.fst hp
      have hle := (List.subperm_of_subset h hsub).length_le
      rw [hlen, List.length_map] at hle
      omega
  obtain ⟨r, hr⟩ := Option.isSome_iff_exists.mp hsome
  constructor
  · rw [get_conversation_messages, hr]; rfl
  · exact ⟨c.mapping.length + 2, by rw [get_conversation_messages, hr]; rfl⟩

/-- A two-node acyclic chain used as the C3 witness. -/
def acyclicDemoConv : Conversation :=
  { title := none, create_time := none, update_time := none,
    current_node := some "n2",
    mapping := [("n2", { message := none, parent := some "n1" }),
                ("n1", { message := none, parent := none })] }

/-- Witness for C3's amended theorem at `acyclicDemoConv`. -/
theorem extract_terminates_witness :
    (walkTrace acyclicDemoConv.mapping (acyclicDemoConv.mapping.length + 2)
        acyclicDemoConv.current_node).Nodup ∧
    ((get_conversation_messages (acyclicDemoConv.mapping.length + 2)
        acyclicDemoConv).isSome = true ∧
      extractTerminates acyclicDemoConv) :=
  ⟨by decide, extract_terminates_of_nodup_trace acyclicDemoConv (by decide)⟩

/-- The keys of a chain mapping are the chain's node-ids. -/
theorem chainMapping_keys (nodes : List (String × Option Message)) :
    (chainMapping nodes).map Prod.fst = nodes.map Prod.fst := by
  induction nodes with
  | nil => rfl
  | cons p rest ih =>
    obtain ⟨id, msg⟩ := p
    simp [chainMapping, ih]

/-- Each suffix head of the chain appears in the chain mapping with its
parent pointing at the next chain element. -/
theorem chain_entry_mem (nodes : List (String × Option Message)) :
    ∀ (id : String) (msg : Option Message) (rest : List (String × Option Message)),
    ((id, msg) :: rest) <:+ nodes →
    ((id, { message := msg, parent := headId rest }) : String × Node) ∈
      chainMapping nodes := by
  induction nodes with
  | nil =>
    intro id msg rest h
    have := List.suffix_nil.mp h
    simp at this
  | cons q qs ih =>
    obtain ⟨qid, qmsg⟩ := q
    intro id msg rest h
    rcases List.suffix_cons_iff.mp h with heq | hsuf
    · rw [← heq]
      simp [chainMapping]
    · exact List.mem_cons_of_mem _ (ih id msg rest hsuf)

/-- In an association list with distinct keys, lookup finds any member
entry. -/
theorem lookup_of_nodup_mem : ∀ (l : List (String × Node)) (a : String) (b : Node),
    (l.map Prod.fst).Nodup → (a, b) ∈ l → List.lookup a l = some b := by
  intro l
  induction l with
  | nil => intro a b _ h; simp at h
  | cons p rest ih =>
    intro a b hnd hmem
    obtain ⟨k, v⟩ := p
    rw [List.map_cons, List.nodup_cons] at hnd
    rcases List.mem_cons.mp hmem with h | h
    · obtain ⟨rfl, rfl⟩ := Prod.mk.injEq .. ▸ h
      exact List.lookup_cons_self
    · have hmem2 : a ∈ rest.map Prod.fst := List.mem_map_of_mem Prod.fst h
      have hak : a ≠ k := fun he => hnd.1 (he ▸ hmem2)
      have hbeq : (a == k) = false := beq_false_of_ne hak
      rw [List.lookup_cons, hbeq]
      exact ih a b hnd.2 h

/-- Walking a suffix of the chain collects, after the already-collected
prefix `acc`, exactly that suffix's visible messages in walk
(leaf-to-root) order. -/
theorem chain_walk (nodes : List (String × Option Message))
    (hnd : (nodes.map Prod.fst).Nodup) (hne : ∀ p ∈ nodes, p.1 ≠ "") :
    ∀ (suffix : List (String × Option Message)) (fuel : Nat) (acc : List VisMsg),
    suffix <:+ nodes → suffix.length < fuel →
    walkAux (chainMapping nodes) fuel (headId suffix) acc =
      some (acc ++ suffix.filterMap chainVisible) := by
  intro suffix
  induction suffix with
  | nil =>
    intro fuel acc _ _
    simp [headId, walkAux]
  | cons p rest ih =>
    intro fuel acc hsuf hfuel
    obtain ⟨id, msg⟩ := p
    have hidne : id ≠ "" := hne (id, msg) (hsuf.subset (List.mem_cons_self _ _))
    have hlook : List.lookup id (chainMapping nodes) =
        some { message := msg, parent := headId rest } :=
      lookup_of_nodup_mem _ _ _ (by rw [chainMapping_keys]; exact hnd)
        (chain_entry_mem nodes id msg rest hsuf)
    cases fuel with
    | zero => exact absurd hfuel (by omega)
    | succ f =>
      have hrest : rest <:+ nodes := (List.suffix_cons (id, msg) rest).trans hsuf
      have hfr : rest.length < f := by
        simpa using Nat.lt_of_succ_lt_succ hfuel
      have hstep : walkAux (chainMapping nodes) (f + 1) (some id) acc =
          walkAux (chainMapping nodes) f (headId rest)
            (match Option.bind msg visibleMessage with
             | some v => acc ++ [v]
             | none => acc) := by
        simp [walkAux, hidne, hlook]
      rw [show headId ((id, msg) :: rest) = some id from rfl, hstep]
      cases hv : Option.bind msg visibleMessage with
      | none =>
        rw [ih f acc hrest hfr]
        simp [List.filterMap_cons, chainVisible, hv]
      | some v =>
        rw [ih f (acc ++ [v]) hrest hfr]
        simp [List.filterMap_cons, chainVisible, hv]

/-- C4: for a conversation whose node graph is the linear chain
`nodes` (given leaf-to-root, distinct non-empty ids, enough fuel), the
walk collects the visibility-filtered messages leaf-to-root, and the
returned transcript is the reversal: the chain's messages in
root-to-leaf (chronological) order after visibility filtering. -/
theorem linear_chain_transcript (nodes : List (String × Option Message)) (fuel : Nat)
    (hnd : (nodes.map Prod.fst).Nodup) (hne : ∀ p ∈ nodes, p.1 ≠ "")
    (hfuel : nodes.length < fuel) :
    walkAux (chainMapping nodes) fuel (headId nodes) [] =
      some (nodes.filterMap chainVisible) ∧
    get_conversation_messages fuel (chainConv nodes) =
      some (nodes.reverse.filterMap chainVisible) := by
  have h := chain_walk nodes hnd hne nodes fuel [] List.suffix_rfl hfuel
  rw [List.nil_append] at h
  refine ⟨h, ?_⟩
  rw [get_conversation_messages]
  show (walkAux (chainMapping nodes) fuel (headId nodes) []).map List.reverse = _
  rw [h, List.filterMap_reverse]
  rfl

/-- A three-node linear chain (leaf-to-root): assistant reply, user
message, then a root node with no message. -/
def demoChain : List (String × Option Message) :=
  [("n3", some { role := "assistant", is_user_system_message := false,
                 content := some { content_type := some "text", parts := ["sure"] } }),
   ("n2", some { role := "user", is_user_system_message := false,
                 content := some { content_type := some "text", parts := ["help me"] } }),
   ("n1", none)]

/-- Witness for C4 at the concrete chain `demoChain`. -/
theorem linear_chain_transcript_witness :
    walkAux (chainMapping demoChain) 4 (headId demoChain) [] =
      some (demoChain.filterMap chainVisible) ∧
    get_conversation_messages 4 (chainConv demoChain) =
      some (demoChain.reverse.filterMap chainVisible) :=
  linear_chain_transcript demoChain 4 (by decide) (by decide) (by decide)

/-- A conversation with a falsy `update_time` is skipped by the loop:
the state is untouched. -/
theorem wcsAux_skip_step (nfkc : String → String) (fuel : Nat) (root : String)
    (c : Conversation) (rest : List Conversation) (files : List (String × String))
    (dirs : List String) (summary : List (String × List SummaryEntry))
    (man : List (String × String))
    (hc : c.update_time = none ∨ c.update_time = some 0) :
    wcsAux nfkc fuel root (c :: rest) files dirs summary man =
      wcsAux nfkc fuel root rest files dirs summary man := by
  rcases hc with h | h <;> simp [wcsAux, h]

/-- Removing a conversation with falsy `update_time` anywhere in the
input leaves the whole run unchanged, from any intermediate state. -/
theorem wcsAux_skip_congr (nfkc : String → String) (fuel : Nat) (root : String)
    (c : Conversation)
    (hc : c.update_time = none ∨ c.update_time = some 0) :
    ∀ (xs ys : List Conversation) (files : List (String × String))
      (dirs : List String) (summary : List (String × List SummaryEntry))
      (man : List (String × String)),
    wcsAux nfkc fuel root (xs ++ c :: ys) files dirs summary man =
      wcsAux nfkc fuel root (xs ++ ys) files dirs summary man := by
  intro xs
  induction xs with
  | nil =>
    intro ys files dirs summary man
    rw [List.nil_append, List.nil_append]
    exact wcsAux_skip_step nfkc fuel root c ys files dirs summary man hc
  | cons x xs ih =>
    intro ys files dirs summary man
    rw [List.cons_append, List.cons_append]
    cases hx : x.update_time with
    | none =>
      simp only [wcsAux, hx]
      exact ih ys files dirs summary man
    | some t =>
      by_cases ht : t = 0
      · simp only [wcsAux, hx, ht, if_pos rfl]
        exact ih ys files dirs summary man
      · cases hm : get_conversation_messages fuel x with
        | none => simp only [wcsAux, hx, if_neg ht, hm]
        | some msgs =>
          cases hu : update_conversation_summary summary (strftime_Y_m t) x t msgs with
          | none => simp only [wcsAux, hx, if_neg ht, hm, hu]
          | some s' =>
            simp only [wcsAux, hx, if_neg ht, hm, hu]
            exact ih ys _ _ s' _

/-- C5: a conversation lacking `update_time` contributes nothing — no
transcript file, no directory, no summary entry, no manifest entry —
and the run on the remaining conversations is exactly the run without
it, so neighbours are unaffected. -/
theorem skip_missing_update_time (nfkc : String → String) (fuel : Nat) (root : String)
    (c : Conversation) (xs ys : List Conversation) (h : c.update_time = none) :
    write_conversations_and_summary nfkc fuel root (xs ++ c :: ys) =
      write_conversations_and_summary nfkc fuel root (xs ++ ys) := by
  rw [write_conversations_and_summary, write_conversations_and_summary]
  exact wcsAux_skip_congr nfkc fuel root c (Or.inl h) xs ys [] [] [] []

/-- C9: the orchestrator's skip test is Python falsiness, not key
presence: `update_time = 0` (the Unix epoch, a perfectly good
timestamp) is skipped exactly like an absent `update_time`. -/
theorem skip_zero_update_time (nfkc : String → String) (fuel : Nat) (root : String)
    (c : Conversation) (xs ys : List Conversation) (h : c.update_time = some 0) :
    write_conversations_and_summary nfkc fuel root (xs ++ c :: ys) =
      write_conversations_and_summary nfkc fuel root (xs ++ ys) := by
  rw [write_conversations_and_summary, write_conversations_and_summary]
  exact wcsAux_skip_congr nfkc fuel root c (Or.inr h) xs ys [] [] [] []

/-- A plain single-message user conversation used in run witnesses. -/
def demoUserMsg : Message :=
  { role := "user", is_user_system_message := false,
    content := some { content_type := some "text", parts := ["hi"] } }

/-- A processed conversation: truthy `update_time`, present
`create_time` (both 2001-09-09 01:46:40 UTC). -/
def demoUserConv : Conversation :=
  { title := some "Alpha", create_time := some 1000000000,
    update_time := some 1000000000, current_node := some "n1",
    mapping := [("n1", { message := some demoUserMsg, parent := none })] }

/-- A conversation with no `update_time`. -/
def noUpdateConv : Conversation :=
  { title := some "Beta", create_time := some 5, update_time := none,
    current_node := some "n1",
    mapping := [("n1", { message := some demoUserMsg, parent := none })] }

/-- A conversation whose `update_time` is present but `0`. -/
def zeroUpdateConv : Conversation :=
  { title := some "Gamma", create_time := some 5, update_time := some 0,
    current_node := some "n1",
    mapping := [("n1", { message := some demoUserMsg, parent := none })] }

/-- Witness for C5: dropping `noUpdateConv` from the input changes
nothing. -/
theorem skip_missing_update_time_witness :
    noUpdateConv.update_time = none ∧
    write_conversations_and_summary id 3 "history"
        ([demoUserConv] ++ noUpdateConv :: [demoUserConv]) =
      write_conversations_and_summary id 3 "history"
        ([demoUserConv] ++ [demoUserConv]) :=
  ⟨rfl, skip_missing_update_time id 3 "history" noUpdateConv
    [demoUserConv] [demoUserConv] rfl⟩

/-- Witness for C9: dropping `zeroUpdateConv` from the input changes
nothing. -/
theorem skip_zero_update_time_witness :
    zeroUpdateConv.update_time = some 0 ∧
    write_conversations_and_summary id 3 "history"
        ([demoUserConv] ++ zeroUpdateConv :: [demoUserConv]) =
      write_conversations_and_summary id 3 "history"
        ([demoUserConv] ++ [demoUserConv]) :=
  ⟨rfl, skip_zero_update_time id 3 "history" zeroUpdateConv
    [demoUserConv] [demoUserConv] rfl⟩

/-- Appending an entry to a group changes only that group's list, by
appending at its end. -/
theorem entriesOf_appendToGroup (s : List (String × List SummaryEntry))
    (k g : String) (e : SummaryEntry) :
    entriesOf (appendToGroup s k e) g =
      entriesOf s g ++ if k = g then [e] else [] := by
  induction s with
  | nil =>
    by_cases hkg : k = g
    · subst hkg
      simp [appendToGroup, entriesOf]
    · simp [appendToGroup, entriesOf, List.lookup_cons, beq_false_of_ne (Ne.symm hkg), hkg]
  | cons p rest ih =>
    obtain ⟨q, es⟩ := p
    by_cases hk : q = k
    · subst hk
      by_cases hg : q = g
      · subst hg
        simp [appendToGroup, entriesOf]
      · simp [appendToGroup, entriesOf, List.lookup_cons, beq_false_of_ne (Ne.symm hg), hg]
    · by_cases hg : q = g
      · subst hg
        have hkg : k ≠ q := fun he => hk he.symm
        simp [appendToGroup, entriesOf, if_neg hk, hkg]
      · simp only [appendToGroup, if_neg hk, entriesOf, List.lookup_cons,
          beq_false_of_ne (Ne.symm hg)]
        exact ih

/-- Folding `appendToGroup` over a pair list: each group's entries are
the pairs with that key, in list order, after whatever the accumulator
already held. -/
theorem entriesOf_foldl (l : List (String × SummaryEntry)) :
    ∀ (acc : List (String × List SummaryEntry)) (g : String),
    entriesOf (l.foldl (fun s p => appendToGroup s p.1 p.2) acc) g =
      entriesOf acc g ++ (l.filter (fun p => p.1 == g)).map Prod.snd := by
  induction l with
  | nil => intro acc g; simp
  | cons p rest ih =>
    intro acc g
    rw [List.foldl_cons, ih, entriesOf_appendToGroup]
    by_cases h : p.1 = g
    · simp [List.filter_cons, h, List.append_assoc]
    · simp [List.filter_cons, h]

/-- Characterization of a completed, non-raising run from any
intermediate state: `specEntries` describes the processed
conversations, the final summary is the fold of `appendToGroup` over
their (group, entry) pairs, and one month directory is created per
processed conversation, named by the same group string. -/
theorem wcsAux_spec (nfkc : String → String) (fuel : Nat) (root : String) :
    ∀ (convs : List Conversation) (files : List (String × String))
      (dirs : List String) (summary : List (String × List SummaryEntry))
      (man : List (String × String)) (out : RunOutcome),
    wcsAux nfkc fuel root convs files dirs summary man = some out →
    out.raised = false →
    ∃ l, specEntries fuel convs = some l ∧
      out.summaryFile = some (l.foldl (fun s p => appendToGroup s p.1 p.2) summary) ∧
      out.fsDirs = dirs ++ l.map (fun p => root ++ "/" ++ p.1) := by
  intro convs
  induction convs with
  | nil =>
    intro files dirs summary man out h _
    obtain rfl := Option.some.inj h
    exact ⟨[], rfl, rfl, by simp⟩
  | cons c rest ih =>
    intro files dirs summary man out h hr
    cases hu : c.update_time with
    | none =>
      have h' : wcsAux nfkc fuel root rest files dirs summary man = some out := by
        simpa [wcsAux, hu] using h
      obtain ⟨l, h1, h2, h3⟩ := ih files dirs summary man out h' hr
      exact ⟨l, by simp [specEntries, hu, h1], h2, h3⟩
    | some t =>
      by_cases ht : t = 0
      · subst ht
        have h' : wcsAux nfkc fuel root rest files dirs summary man = some out := by
          simpa [wcsAux, hu] using h
        obtain ⟨l, h1, h2, h3⟩ := ih files dirs summary man out h' hr
        exact ⟨l, by simp [specEntries, hu, h1], h2, h3⟩
      · cases hm : get_conversation_messages fuel c with
        | none =>
          exfalso
          simp [wcsAux, hu, if_neg ht, hm] at h
        | some msgs =>
          cases hct : c.create_time with
          | none =>
            exfalso
            have : out.raised = true := by
              have h' := h
              simp only [wcsAux, hu, if_neg ht, hm, update_conversation_summary, hct] at h'
              obtain rfl := Option.some.inj h'
              rfl
            rw [this] at hr
            exact Bool.noConfusion hr
          | some ct =>
            have h' : wcsAux nfkc fuel root rest
                (files ++ [(create_file_name nfkc (directory_path root t)
                    (c.title.getD "Untitled") t, writeBody msgs)])
                (dirs ++ [directory_path root t])
                (appendToGroup summary (strftime_Y_m t)
                  { title := c.title.getD "Untitled", create_time := fmtDateTime ct,
                    update_time := fmtDateTime t, messages := msgs })
                (man ++ [(directory_path root t,
                          create_file_name nfkc (directory_path root t)
                            (c.title.getD "Untitled") t)]) = some out := by
              simpa [wcsAux, hu, if_neg ht, hm, update_conversation_summary, hct] using h
            obtain ⟨l, h1, h2, h3⟩ := ih _ _ _ _ out h' hr
            refine ⟨(strftime_Y_m t,
              { title := c.title.getD "Untitled", create_time := fmtDateTime ct,
                update_time := fmtDateTime t, messages := msgs }) :: l, ?_, ?_, ?_⟩
            · simp [specEntries, hu, if_neg ht, conversationEntry, hm, hct, h1]
            · rw [h2]; rfl
            · rw [h3, directory_path]
              simp [List.append_assoc]

/-- C8: after a completed, non-raising run, the summary JSON is the
grouping of the processed conversations' (group, entry) pairs: every
entry sits under the key `strftime("%Y_%m")` of its `update_time`
(the same string that names its output subdirectory, as the
directory-log conjunct shows), within each group entries appear in
input processing order, and each entry carries the title (default
`"Untitled"`), the formatted `create_time` and `update_time`, and the
full transcript — all per `specEntries` and `conversationEntry`. -/
theorem summary_grouping (nfkc : String → String) (fuel : Nat) (root : String)
    (convs : List Conversation) (out : RunOutcome)
    (l : List (String × SummaryEntry)) (g : String)
    (hrun : write_conversations_and_summary nfkc fuel root convs = some out)
    (hraised : out.raised = false)
    (hl : specEntries fuel convs = some l) :
    out.summaryFile = some (groupByFirst l) ∧
    out.fsDirs = l.map (fun p => root ++ "/" ++ p.1) ∧
    entriesOf (groupByFirst l) g = (l.filter (fun p => p.1 == g)).map Prod.snd := by
  obtain ⟨l', h1, h2, h3⟩ :=
    wcsAux_spec nfkc fuel root convs [] [] [] [] out hrun hraised
  rw [hl] at h1
  obtain rfl := Option.some.inj h1
  refine ⟨h2, by simpa using h3, ?_⟩
  rw [groupByFirst, entriesOf_foldl]
  simp [entriesOf]

/-- The summary entry `demoUserConv` produces. -/
def demoEntry : SummaryEntry :=
  { title := "Alpha", create_time := "2001-09-09 01:46:40",
    update_time := "2001-09-09 01:46:40",
    messages := [{ author := "user", text := "hi" }] }

/-- The (group, entry) pairs of the demo run. -/
def demoL : List (String × SummaryEntry) := [("2001_09", demoEntry)]

/-- The outcome of running the orchestrator on `[demoUserConv]`. -/
def demoOut : RunOutcome :=
  { fsFiles := [("history/2001_09/2001_09_09_Alpha.txt", "user\nhi\n")],
    fsDirs := ["history/2001_09"],
    summaryFile := some [("2001_09", [demoEntry])],
    manifest := some [("history/2001_09", "history/2001_09/2001_09_09_Alpha.txt")],
    raised := false }

/-- Witness for C8 on the concrete demo run, at group `"2001_09"`. -/
theorem summary_grouping_witness :
    (write_conversations_and_summary id 3 "history" [demoUserConv] = some demoOut ∧
      demoOut.raised = false ∧ specEntries 3 [demoUserConv] = some demoL) ∧
    (demoOut.summaryFile = some (groupByFirst demoL) ∧
      demoOut.fsDirs = demoL.map (fun p => "history" ++ "/" ++ p.1) ∧
      entriesOf (groupByFirst demoL) "2001_09" =
        (demoL.filter (fun p => p.1 == "2001_09")).map Prod.snd) :=
  ⟨⟨by decide, by decide, by decide⟩,
    summary_grouping id 3 "history" [demoUserConv] demoOut demoL "2001_09"
      (by decide) (by decide) (by decide)⟩

/-- C10: for a non-skipped conversation (truthy `update_time`, walk
finishing with `msgs`), `create_time` is a precondition of recording
the summary entry: when it is absent,
`datetime.fromtimestamp(conversation.get("create_time"))` raises, so
the run stops right after this conversation's transcript file was
written — the file and its month directory are on disk, no summary
JSON is written and no manifest is returned; when `create_time` is
present, the error branch is not taken and the loop continues
normally. -/
theorem create_time_precondition (nfkc : String → String) (fuel : Nat) (root : String)
    (c : Conversation) (rest : List Conversation) (files : List (String × String))
    (dirs : List String) (summary : List (String × List SummaryEntry))
    (man : List (String × String)) (t ct : Int) (msgs : List VisMsg)
    (hu : c.update_time = some t) (ht : t ≠ 0)
    (hm : get_conversation_messages fuel c = some msgs) :
    (c.create_time = none →
      wcsAux nfkc fuel root (c :: rest) files dirs summary man =
        some { fsFiles := files ++
                 [(create_file_name nfkc (directory_path root t)
                     (c.title.getD "Untitled") t, writeBody msgs)],
               fsDirs := dirs ++ [directory_path root t],
               summaryFile := none, manifest := none, raised := true }) ∧
    (c.create_time = some ct →
      wcsAux nfkc fuel root (c :: rest) files dirs summary man =
        wcsAux nfkc fuel root rest
          (files ++ [(create_file_name nfkc (directory_path root t)
              (c.title.getD "Untitled") t, writeBody msgs)])
          (dirs ++ [directory_path root t])
          (appendToGroup summary (strftime_Y_m t)
            { title := c.title.getD "Untitled", create_time := fmtDateTime ct,
              update_time := fmtDateTime t, messages := msgs })
          (man ++ [(directory_path root t,
                    create_file_name nfkc (directory_path root t)
                      (c.title.getD "Untitled") t)])) := by
  constructor
  · intro hct
    simp [wcsAux, hu, if_neg ht, hm, update_conversation_summary, hct]
  · intro hct
    simp [wcsAux, hu, if_neg ht, hm, update_conversation_summary, hct]

/-- A non-skipped conversation with no `create_time`. -/
def noCreateConv : Conversation :=
  { title := some "NoCreate", create_time := none,
    update_time := some 1000000000, current_node := some "n1",
    mapping := [("n1", { message := some demoUserMsg, parent := none })] }

/-- Witness for C10: one application on `noCreateConv` (the raising
branch is real) and one on `demoUserConv` (the normal branch is
real). -/
theorem create_time_precondition_witness :
    ((noCreateConv.create_time = none →
        wcsAux id 3 "history" [noCreateConv] [] [] [] [] =
          some { fsFiles := [(create_file_name id (directory_path "history" 1000000000)
                    (noCreateConv.title.getD "Untitled") 1000000000,
                  writeBody [{ author := "user", text := "hi" }])],
                 fsDirs := [directory_path "history" 1000000000],
                 summaryFile := none, manifest := none, raised := true }) ∧
      (noCreateConv.create_time = some 0 →
        wcsAux id 3 "history" [noCreateConv] [] [] [] [] =
          wcsAux id 3 "history" []
            [(create_file_name id (directory_path "history" 1000000000)
                (noCreateConv.title.getD "Untitled") 1000000000,
              writeBody [{ author := "user", text := "hi" }])]
            [directory_path "history" 1000000000]
            (appendToGroup [] (strftime_Y_m 1000000000)
              { title := noCreateConv.title.getD "Untitled",
                create_time := fmtDateTime 0, update_time := fmtDateTime 1000000000,
                messages := [{ author := "user", text := "hi" }] })
            [(directory_path "history" 1000000000,
              create_file_name id (directory_path "history" 1000000000)
                (noCreateConv.title.getD "Untitled") 1000000000)])) ∧
    ((demoUserConv.create_time = none →
        wcsAux id 3 "history" [demoUserConv] [] [] [] [] =
          some { fsFiles := [(create_file_name id (directory_path "history" 1000000000)
                    (demoUserConv.title.getD "Untitled") 1000000000,
                  writeBody [{ author := "user", text := "hi" }])],
                 fsDirs := [directory_path "history" 1000000000],
                 summaryFile := none, manifest := none, raised := true }) ∧
      (demoUserConv.create_time = some 1000000000 →
        wcsAux id 3 "history" [demoUserConv] [] [] [] [] =
          wcsAux id 3 "history" []
            [(create_file_name id (directory_path "history" 1000000000)
                (demoUserConv.title.getD "Untitled") 1000000000,
              writeBody [{ author := "user", text := "hi" }])]
            [directory_path "history" 1000000000]
            (appendToGroup [] (strftime_Y_m 1000000000)
              { title := demoUserConv.title.getD "Untitled",
                create_time := fmtDateTime 1000000000,
                update_time := fmtDateTime 1000000000,
                messages := [{ author := "user", text := "hi" }] })
            [(directory_path "history" 1000000000,
              create_file_name id (directory_path "history" 1000000000)
                (demoUserConv.title.getD "Untitled") 1000000000)])) :=
  ⟨create_time_precondition id 3 "history" noCreateConv [] [] [] [] []
      1000000000 0 [{ author := "user", text := "hi" }] rfl (by decide) (by decide),
    create_time_precondition id 3 "history" demoUserConv [] [] [] [] []
      1000000000 1000000000 [{ author := "user", text := "hi" }] rfl (by decide)
      (by decide)⟩
